import Mathlib

/-!
Verification of the Portfolio Risk Analytics Engine of the crypto-dashboard
repository.

The repository splits into three relevant layers:

* `backend/src/routes/crypto.routes.ts` — the HTTP route
  `POST /crypto/portfolio/analyze`, present in the sources.  It is embedded
  below in namespace `Routes`.
* `frontend/src/components/PortfolioAnalyzer.tsx` — the frontend component,
  present in the sources.  Its numeric re-computation of the engine formulas
  (`generatePersonalizedCalculation`) and its `analyzePortfolio` guard are
  embedded below in namespace `Frontend`.
* `backend/src/services/crypto.service.ts` — the engine itself
  (`analyzePortfolio` and its collaborators), imported by the route but not
  present in the sources.  It is modelled from the specification in
  namespace `Engine`; every such definition carries a doc comment starting
  with `Modelled from the spec:`.

Floating point numbers are embedded as exact rationals; the square roots
required by the volatility formulas live in `ℝ`.
-/

namespace Engine

/-- Modelled from the spec: the error taxonomy of §7 for the missing
`crypto.service.ts` engine. -/
inductive EngineError where
  | invalidPortfolio
  | priceResolution
  | degenerateSeries
  | misalignedSeries
  | insufficientData
deriving DecidableEq, Repr

/-- Contribution record of the data model (§3): one asset's share of total
portfolio risk and return. -/
structure Contribution where
  asset : String
  riskContribution : ℚ
  returnContribution : ℚ
deriving DecidableEq, Repr

/-- CumulativePoint record of the data model (§3): one day of the
benchmark-normalized index series. -/
structure CumulativePoint where
  date : String
  portfolio : ℚ
  btc : ℚ
  eth : ℚ
deriving DecidableEq, Repr

/-- RiskMetrics record of the data model (§3).  The fields that involve a
square root are real-valued; the others are exact rationals. -/
structure RiskMetrics where
  expectedReturn : ℚ
  volatility : ℝ
  maxDrawdown : ℚ
  sharpeRatio : ℝ

/-- PortfolioAnalytics record of the data model (§3), the sole externally
visible result of `analyzePortfolio`. -/
structure PortfolioAnalytics where
  metrics : RiskMetrics
  historicalReturns : List ℚ
  cumulativeReturns : List CumulativePoint
  assetContributions : List Contribution

/-- Modelled from the spec: the deterministic pseudo-random generator that
seeds the Price-Series Synthesizer (§4.1); a linear congruential step.  The
spec fixes no concrete generator, only that it is a deterministic function
of the seed material. -/
def lcg (s : ℕ) : ℕ := (75 * s + 74) % 65537

/-- Modelled from the spec: the t-th pseudo-random draw for a given seed. -/
def randAt (seed t : ℕ) : ℕ := lcg^[t + 1] seed

/-- Modelled from the spec: the fixed small daily drift of the random walk
(§4.1). -/
def drift : ℚ := 1 / 1000

/-- Modelled from the spec: the fixed daily volatility constant of the
random walk, 3 percent daily, inside the 2–5 percent range required by
§4.1. -/
def dailyVolConst : ℚ := 3 / 100

/-- Modelled from the spec: the day-t simple return of the synthetic walk,
`drift + vol * (u - 1/2)` with `u` uniform on `[0,1)`.  The exponential of
the spec's log-return is modelled by the positive growth factor
`1 + dailyReturn`, which preserves every §4.1 invariant (positivity,
anchoring, determinism) in exact arithmetic. -/
def dailyReturn (seed t : ℕ) : ℚ :=
  drift + dailyVolConst * ((randAt seed t : ℚ) / 65537 - 1 / 2)

/-- Modelled from the spec: the list of the `windowDays` synthetic daily
returns for a seed. -/
def dailyReturns (seed windowDays : ℕ) : List ℚ :=
  (List.range windowDays).map (dailyReturn seed)

/-- Modelled from the spec: the backward walk of §4.1.  The last price is
the anchor `currentPrice` and each earlier day is obtained by dividing by
that day's growth factor `1 + r`. -/
def backPrices (currentPrice : ℚ) : List ℚ → List ℚ
  | [] => [currentPrice]
  | r :: rest =>
    match backPrices currentPrice rest with
    | [] => [currentPrice]
    | p :: t => p / (1 + r) :: p :: t

/-- Modelled from the spec: the Price-Series Synthesizer contract of §4.1,
`synthesize(assetId, currentPrice, windowDays, seedMaterial)`.  A window of
zero days is rejected with a data-insufficiency error (§4.1 edge case). -/
def synthesize (assetId : String) (currentPrice : ℚ) (windowDays : ℕ)
    (seedMaterial : ℕ) : Except EngineError (List ℚ) :=
  if windowDays = 0 then .error .insufficientData
  else .ok (backPrices currentPrice (dailyReturns seedMaterial windowDays))

/-- Modelled from the spec: contract A of the Return Series Computer
(§4.2), simple percentage returns with a defensive check that every price
is positive. -/
def toReturns (prices : List ℚ) : Except EngineError (List ℚ) :=
  if ∃ p ∈ prices, p ≤ 0 then .error .degenerateSeries
  else .ok (List.zipWith (fun a b => (b - a) / a) prices prices.tail)

/-- Modelled from the spec: the average daily return of §4.3. -/
def avgDaily (returns : List ℚ) : ℚ := returns.sum / returns.length

/-- Modelled from the spec: the population variance of §4.3, divisor `N`. -/
def popVar (returns : List ℚ) : ℚ :=
  ((returns.map fun r => (r - avgDaily returns) ^ 2).sum) / returns.length

/-- Modelled from the spec: the population covariance over the same window,
used by the Risk Contribution Decomposer (§4.5). -/
def popCov (xs ys : List ℚ) : ℚ :=
  ((List.zipWith (fun a b => (a - avgDaily xs) * (b - avgDaily ys)) xs ys).sum) /
    xs.length

/-- Modelled from the spec: the maximum drawdown of §4.3 — cumulative value
path from 1.0, running peak, maximum of `(peak - value) / peak`, clamped to
`[0,1]`.  The fold state is `(value, peak, maxSoFar)`. -/
def maxDrawdown (returns : List ℚ) : ℚ :=
  let final := returns.foldl
    (fun st r =>
      let v := st.1 * (1 + r)
      let pk := max st.2.1 v
      (v, pk, max st.2.2 ((pk - v) / pk)))
    ((1 : ℚ), (1 : ℚ), (0 : ℚ))
  min 1 (max 0 final.2.2)

/-- Modelled from the spec: length of the first per-asset series, the
common day-alignment target of §4.2 contract B. -/
def headLen (entries : List (ℚ × List ℚ)) : ℕ :=
  match entries with
  | [] => 0
  | e :: _ => e.2.length

/-- Modelled from the spec: the raw weighted aggregation of §4.2 contract
B — for every day `t` the portfolio return is the weight-scaled sum of the
per-asset returns. -/
def aggAux (n : ℕ) (entries : List (ℚ × List ℚ)) : List ℚ :=
  entries.foldr
    (fun e acc => List.zipWith (fun a b => a + b) (e.2.map fun r => e.1 * r) acc)
    (List.replicate n 0)

/-- Modelled from the spec: contract B of the Return Series Computer
(§4.2) with the defensive alignment check. -/
def weightedAggregate (entries : List (ℚ × List ℚ)) : Except EngineError (List ℚ) :=
  if ∀ e ∈ entries, e.2.length = headLen entries then
    .ok (aggAux (headLen entries) entries)
  else .error .misalignedSeries

/-- Modelled from the spec: the fixed 2 percent annual risk-free rate of
§4.3. -/
def riskFreeRate : ℚ := 2 / 100

/-- Modelled from the spec: the Risk and Performance Metrics Calculator of
§4.3.  The `sharpeRatio` guard `volatility == 0` is expressed through the
equivalent decidable condition `popVar returns = 0`; the equivalence is
proved in `volatility_eq_zero_iff` below. -/
noncomputable def compute (returns : List ℚ) : Except EngineError RiskMetrics :=
  if returns.length < 2 then .error .insufficientData
  else .ok
    { expectedReturn := avgDaily returns * 252
      volatility := Real.sqrt ((popVar returns : ℚ) : ℝ) * Real.sqrt 252
      maxDrawdown := Engine.maxDrawdown returns
      sharpeRatio :=
        if popVar returns = 0 then 0
        else (((avgDaily returns * 252 - riskFreeRate : ℚ)) : ℝ) /
          (Real.sqrt ((popVar returns : ℚ) : ℝ) * Real.sqrt 252) }

/-- Modelled from the spec: the cumulative index of §4.4, base 100 and
multiplicative evolution. -/
def cumIndex (returns : List ℚ) : List ℚ :=
  List.scanl (fun acc r => acc * (1 + r)) 100 returns

/-- Modelled from the spec: the Benchmark Normalizer of §4.4 — three equal
length return series zipped with a caller-supplied date axis of matching
length. -/
def normalize (portfolioReturns btcReturns ethReturns : List ℚ)
    (dates : List String) : Except EngineError (List CumulativePoint) :=
  if btcReturns.length = portfolioReturns.length ∧
      ethReturns.length = portfolioReturns.length ∧
      dates.length = portfolioReturns.length + 1 then
    .ok ((dates.zip ((cumIndex portfolioReturns).zip
        ((cumIndex btcReturns).zip (cumIndex ethReturns)))).map
      fun x => { date := x.1, portfolio := x.2.1, btc := x.2.2.1, eth := x.2.2.2 })
  else .error .misalignedSeries

/-- Modelled from the spec: the Risk Contribution Decomposer of §4.5, with
the explicit fallback-to-weight policies for a zero portfolio variance and
a zero total weighted average return. -/
def decompose (entries : List (String × ℚ × List ℚ)) : List Contribution :=
  let stripped := entries.map fun e => (e.2.1, e.2.2)
  let port := aggAux (headLen stripped) stripped
  let totalRet := (entries.map fun e => e.2.1 * avgDaily e.2.2).sum
  let varP := popVar port
  entries.map fun e =>
    { asset := e.1
      riskContribution :=
        if varP = 0 then e.2.1 else e.2.1 * popCov e.2.2 port / varP
      returnContribution :=
        if totalRet = 0 then e.2.1 else e.2.1 * avgDaily e.2.2 / totalRet }

/-- Modelled from the spec: the seed material of §4.1, derived
deterministically from the asset id (sum of character codes). -/
def seedOf (assetId : String) : ℕ :=
  assetId.toList.foldl (fun a c => a + c.toNat) 0

/-- Modelled from the spec: the price-resolution collaborator interface of
§6 — an asset id resolves to a symbol and a current price, or fails. -/
abbrev Resolver := String → Option (String × ℚ)

/-- Modelled from the spec: the engine-internal benchmark asset id for
Bitcoin (§6). -/
def btcId : String := "bitcoin"

/-- Modelled from the spec: the engine-internal benchmark asset id for
Ethereum (§6). -/
def ethId : String := "ethereum"

/-- Modelled from the spec: synthesis of the per-asset return series for
every requested asset — resolve the price, synthesize the price series,
convert it to returns, keeping the allocation weight alongside. -/
def synthEntries (resolve : Resolver) (windowDays : ℕ) :
    List (String × ℚ) → Except EngineError (List (String × ℚ × List ℚ))
  | [] => .ok []
  | (assetId, w) :: rest =>
    match resolve assetId with
    | none => .error .priceResolution
    | some sc => do
      let prices ← synthesize assetId sc.2 windowDays (seedOf assetId)
      let rs ← toReturns prices
      let tail ← synthEntries resolve windowDays rest
      .ok ((assetId, w, rs) :: tail)

/-- Modelled from the spec: the benchmark return series for one benchmark
asset id, produced through the same resolver and synthesizer. -/
def benchReturns (resolve : Resolver) (assetId : String) (windowDays : ℕ) :
    Except EngineError (List ℚ) :=
  match resolve assetId with
  | none => .error .priceResolution
  | some sc => do
    let prices ← synthesize assetId sc.2 windowDays (seedOf assetId)
    toReturns prices

/-- Modelled from the spec: a calendar label for day `t` on the date axis
of §4.4; the Normalizer only zips, it does not compute dates. -/
def dayLabel (t : ℕ) : String := toString t

/-- Modelled from the spec: the caller-supplied date axis of length
`windowDays + 1`. -/
def dateAxis (windowDays : ℕ) : List String :=
  (List.range (windowDays + 1)).map dayLabel

/-- Modelled from the spec: the sum of the allocation weights of a
portfolio. -/
def sumWeights (portfolio : List (String × ℚ)) : ℚ :=
  (portfolio.map fun a => a.2).sum

/-- Modelled from the spec: the engine operation
`analyze(portfolio, windowDays, resolvePrice)` of §6, the missing
`analyzePortfolio` of `crypto.service.ts`.  The §6 preconditions on the
portfolio are re-validated defensively; a too-short window is rejected by
the Synthesizer (§8 scenario 4). -/
noncomputable def analyzePortfolio (resolve : Resolver)
    (portfolio : List (String × ℚ)) (windowDays : ℕ) :
    Except EngineError PortfolioAnalytics :=
  if portfolio.length < 2 then .error .invalidPortfolio
  else if ¬ (|sumWeights portfolio - 1| ≤ 1 / 1000) then .error .invalidPortfolio
  else if ¬ (∀ a ∈ portfolio, 0 ≤ a.2 ∧ a.2 ≤ 1) then .error .invalidPortfolio
  else do
    let entries ← synthEntries resolve windowDays portfolio
    let port ← weightedAggregate (entries.map fun e => (e.2.1, e.2.2))
    let metrics ← compute port
    let btcRs ← benchReturns resolve btcId windowDays
    let ethRs ← benchReturns resolve ethId windowDays
    let cum ← normalize port btcRs ethRs (dateAxis windowDays)
    .ok { metrics := metrics, historicalReturns := port,
          cumulativeReturns := cum, assetContributions := decompose entries }

/-- The simple-return series of a price list, the payload of a successful
`toReturns`. -/
def returnsOf (prices : List ℚ) : List ℚ :=
  List.zipWith (fun a b => (b - a) / a) prices prices.tail

/-- The per-asset return entries produced by a successful synthesis pass,
as a direct computable expression (used to state hypotheses about concrete
runs of the engine). -/
def entriesOf (resolve : Resolver) (windowDays : ℕ)
    (portfolio : List (String × ℚ)) : List (String × ℚ × List ℚ) :=
  portfolio.map fun a =>
    (a.1, a.2,
      returnsOf (backPrices ((resolve a.1).elim 0 fun sc => sc.2)
        (dailyReturns (seedOf a.1) windowDays)))

/-- The aggregated portfolio return series of a successful engine run, as a
direct computable expression. -/
def portSeriesOf (resolve : Resolver) (windowDays : ℕ)
    (portfolio : List (String × ℚ)) : List ℚ :=
  aggAux windowDays ((entriesOf resolve windowDays portfolio).map fun e => (e.2.1, e.2.2))

/-- The benchmark return series produced by a successful engine run, as a
direct computable expression. -/
def benchRsOf (resolve : Resolver) (assetId : String) (windowDays : ℕ) : List ℚ :=
  returnsOf (backPrices ((resolve assetId).elim 0 fun sc => sc.2)
    (dailyReturns (seedOf assetId) windowDays))

end Engine

namespace Routes

/-- One element of the `assets` array of a `POST /crypto/portfolio/analyze`
request body: `id` may be absent (or empty, which JavaScript also treats as
falsy) and `allocation` may be a non-number (`none`). -/
structure RawAsset where
  id : Option String
  allocation : Option ℚ

/-- A JavaScript-falsy `asset.id`: absent or the empty string. -/
def idFalsy (a : RawAsset) : Prop := a.id = none ∨ a.id = some ""

instance (a : RawAsset) : Decidable (idFalsy a) := by
  unfold idFalsy
  infer_instance

/-- The three ways the route responds: a JSON success payload, a 400
client-error rejection, or a 500 server error. -/
inductive RouteResult where
  | ok (analytics : Engine.PortfolioAnalytics)
  | clientError (msg : String)
  | serverError (msg : String)

/-- The percentage-to-fraction conversion performed by the route before it
calls the engine: `allocation: asset.allocation / 100`. -/
def convertAsset (a : RawAsset) : String × ℚ :=
  (a.id.getD "", a.allocation.getD 0 / 100)

/-- The handler of `POST /crypto/portfolio/analyze` in
`backend/src/routes/crypto.routes.ts`: reject a missing or too-short
`assets` array with 400, reject a structurally invalid asset with 400,
convert percentages to decimals, then delegate to the engine, mapping any
engine failure to a 500 response. -/
noncomputable def handleAnalyze (resolve : Engine.Resolver)
    (assets : Option (List RawAsset)) (days : ℕ) : RouteResult :=
  match assets with
  | none => .clientError "Portfolio must contain at least 2 assets"
  | some assets =>
    if assets.length < 2 then
      .clientError "Portfolio must contain at least 2 assets"
    else if ¬ (∀ a ∈ assets, ¬ idFalsy a ∧ a.allocation ≠ none) then
      .clientError "Each asset must have id and allocation"
    else
      match Engine.analyzePortfolio resolve (assets.map convertAsset) days with
      | .ok an => .ok an
      | .error _ => .serverError "Failed to analyze portfolio"

end Routes

namespace Frontend

/-- The average daily return recomputed by
`generatePersonalizedCalculation` in `PortfolioAnalyzer.tsx`
(`reduce((sum, ret) => sum + ret, 0) / length`). -/
def avgDailyReturn (historicalReturns : List ℚ) : ℚ :=
  historicalReturns.foldl (fun sum ret => sum + ret) 0 / historicalReturns.length

/-- The annualized return shown by the frontend: average daily return times
252. -/
def annualizedReturn (historicalReturns : List ℚ) : ℚ :=
  avgDailyReturn historicalReturns * 252

/-- The population variance recomputed by the frontend volatility panel
(`reduce((sum, ret) => sum + pow(ret - avgReturn, 2), 0) / length`). -/
def dailyVariance (historicalReturns : List ℚ) : ℚ :=
  historicalReturns.foldl
    (fun sum ret => sum + (ret - avgDailyReturn historicalReturns) ^ 2) 0 /
    historicalReturns.length

/-- The daily volatility shown by the frontend: square root of the daily
variance. -/
noncomputable def dailyVol (historicalReturns : List ℚ) : ℝ :=
  Real.sqrt ((dailyVariance historicalReturns : ℚ) : ℝ)

/-- The annualized volatility shown by the frontend: daily volatility times
the square root of 252. -/
noncomputable def annualizedVol (historicalReturns : List ℚ) : ℝ :=
  dailyVol historicalReturns * Real.sqrt 252

/-- The fixed 2 percent annual risk-free rate of the frontend Sharpe-ratio
panel. -/
def riskFreeRate : ℚ := 2 / 100

/-- The guard of the frontend `analyzePortfolio` in
`PortfolioAnalyzer.tsx`: fewer than 2 assets, or a total allocation (in
percent) farther than 0.1 from 100, blocks the request. -/
def rejectsPortfolio (allocations : List ℚ) : Prop :=
  allocations.length < 2 ∨ ¬ (|allocations.sum - 100| ≤ 1 / 10)

end Frontend

namespace Engine

theorem dailyReturns_length (seed windowDays : ℕ) :
    (dailyReturns seed windowDays).length = windowDays := by
  simp [dailyReturns]

theorem one_add_dailyReturn_pos (seed t : ℕ) : 0 < 1 + dailyReturn seed t := by
  have hk : (0 : ℚ) ≤ (randAt seed t : ℚ) := Nat.cast_nonneg _
  unfold dailyReturn drift dailyVolConst
  nlinarith [hk]

theorem backPrices_ne_nil (cp : ℚ) (rs : List ℚ) : backPrices cp rs ≠ [] := by
  cases rs with
  | nil => simp [backPrices]
  | cons r rest =>
    unfold backPrices
    cases h : backPrices cp rest <;> simp

theorem backPrices_cons (cp r : ℚ) (rest : List ℚ) :
    ∃ p t, backPrices cp rest = p :: t ∧
      backPrices cp (r :: rest) = p / (1 + r) :: p :: t := by
  cases h : backPrices cp rest with
  | nil => exact absurd h (backPrices_ne_nil cp rest)
  | cons p t =>
    refine ⟨p, t, rfl, ?_⟩
    unfold backPrices
    rw [h]

theorem backPrices_length (cp : ℚ) (rs : List ℚ) :
    (backPrices cp rs).length = rs.length + 1 := by
  induction rs with
  | nil => simp [backPrices]
  | cons r rest ih =>
    obtain ⟨p, t, h1, h2⟩ := backPrices_cons cp r rest
    rw [h2]
    simpa [h1] using ih

theorem backPrices_getLast? (cp : ℚ) (rs : List ℚ) :
    (backPrices cp rs).getLast? = some cp := by
  induction rs with
  | nil => simp [backPrices]
  | cons r rest ih =>
    obtain ⟨p, t, h1, h2⟩ := backPrices_cons cp r rest
    rw [h2, List.getLast?_cons_cons, ← h1, ih]

theorem backPrices_pos (cp : ℚ) (rs : List ℚ) (hcp : 0 < cp)
    (hr : ∀ r ∈ rs, 0 < 1 + r) : ∀ p ∈ backPrices cp rs, 0 < p := by
  induction rs with
  | nil =>
    intro p hp
    simp [backPrices] at hp
    simpa [hp] using hcp
  | cons r rest ih =>
    obtain ⟨p0, t, h1, h2⟩ := backPrices_cons cp r rest
    intro p hp
    rw [h2] at hp
    have hrest : ∀ q ∈ backPrices cp rest, 0 < q :=
      ih (fun q hq => hr q (List.mem_cons_of_mem r hq))
    have hp0 : 0 < p0 := hrest p0 (by rw [h1]; exact List.mem_cons_self _ _)
    rcases List.mem_cons.mp hp with h | h
    · subst h
      exact div_pos hp0 (hr r (List.mem_cons_self r rest))
    · exact hrest p (by rw [h1]; exact h)

theorem synthesize_ok (assetId : String) (cp : ℚ) (W seed : ℕ) (hW : 1 ≤ W) :
    synthesize assetId cp W seed = .ok (backPrices cp (dailyReturns seed W)) := by
  simp [synthesize, Nat.one_le_iff_ne_zero.mp hW]

theorem toReturns_ok (prices : List ℚ) (hpos : ∀ p ∈ prices, 0 < p) :
    toReturns prices = .ok (returnsOf prices) := by
  have : ¬ ∃ p ∈ prices, p ≤ 0 := by
    rintro ⟨p, hp, hle⟩
    exact absurd (hpos p hp) (not_lt.mpr hle)
  simp [toReturns, returnsOf, this]

theorem returnsOf_length (prices : List ℚ) :
    (returnsOf prices).length = prices.length - 1 := by
  cases prices with
  | nil => simp [returnsOf]
  | cons p rest => simp [returnsOf]

theorem map_sum_range (xs : List ℚ) (f : ℚ → ℚ) :
    (xs.map f).sum = ∑ t in Finset.range xs.length, f (xs.getD t 0) := by
  induction xs with
  | nil => simp
  | cons x rest ih =>
    rw [List.map_cons, List.sum_cons, List.length_cons, Finset.sum_range_succ']
    simp only [List.getD_cons_succ, List.getD_cons_zero]
    rw [ih]
    ring

theorem sum_eq_range (xs : List ℚ) :
    xs.sum = ∑ t in Finset.range xs.length, xs.getD t 0 := by
  have h := map_sum_range xs id
  simpa using h

theorem zipWith_sum_range (f : ℚ → ℚ → ℚ) (xs ys : List ℚ)
    (h : ys.length = xs.length) :
    (List.zipWith f xs ys).sum =
      ∑ t in Finset.range xs.length, f (xs.getD t 0) (ys.getD t 0) := by
  induction xs generalizing ys with
  | nil => simp
  | cons x rest ih =>
    cases ys with
    | nil => simp at h
    | cons y yrest =>
      simp only [List.length_cons, Nat.succ_inj] at h
      rw [List.zipWith_cons_cons, List.sum_cons, List.length_cons,
        Finset.sum_range_succ']
      simp only [List.getD_cons_succ, List.getD_cons_zero]
      rw [ih yrest h]
      ring

theorem getD_replicate_zero (n t : ℕ) : (List.replicate n (0 : ℚ)).getD t 0 = 0 := by
  induction n generalizing t with
  | zero => simp
  | succ m ih =>
    cases t with
    | zero => simp [List.replicate_succ]
    | succ s => simp [List.replicate_succ, ih s]

theorem getD_map (f : ℚ → ℚ) (xs : List ℚ) (t : ℕ) (ht : t < xs.length) :
    (xs.map f).getD t 0 = f (xs.getD t 0) := by
  induction xs generalizing t with
  | nil => simp at ht
  | cons x rest ih =>
    cases t with
    | zero => simp
    | succ s =>
      simp only [List.length_cons, Nat.succ_lt_succ_iff] at ht
      simpa using ih s ht

theorem getD_zipWith (f : ℚ → ℚ → ℚ) (xs ys : List ℚ) (t : ℕ)
    (hx : t < xs.length) (hy : t < ys.length) :
    (List.zipWith f xs ys).getD t 0 = f (xs.getD t 0) (ys.getD t 0) := by
  induction xs generalizing ys t with
  | nil => simp at hx
  | cons x rest ih =>
    cases ys with
    | nil => simp at hy
    | cons y yrest =>
      cases t with
      | zero => simp
      | succ s =>
        simp only [List.length_cons, Nat.succ_lt_succ_iff] at hx hy
        simpa using ih yrest s hx hy

theorem aggAux_nil (n : ℕ) : aggAux n [] = List.replicate n 0 := rfl

theorem aggAux_cons (n : ℕ) (e : ℚ × List ℚ) (rest : List (ℚ × List ℚ)) :
    aggAux n (e :: rest) =
      List.zipWith (fun a b => a + b) (e.2.map fun r => e.1 * r) (aggAux n rest) := rfl

theorem aggAux_length (n : ℕ) (entries : List (ℚ × List ℚ))
    (halign : ∀ e ∈ entries, e.2.length = n) : (aggAux n entries).length = n := by
  induction entries with
  | nil => simp [aggAux_nil]
  | cons e rest ih =>
    rw [aggAux_cons]
    have he : e.2.length = n := halign e (List.mem_cons_self _ _)
    have hr : (aggAux n rest).length = n :=
      ih fun x hx => halign x (List.mem_cons_of_mem e hx)
    simp [he, hr]

theorem aggAux_getD (n : ℕ) (entries : List (ℚ × List ℚ))
    (halign : ∀ e ∈ entries, e.2.length = n) (t : ℕ) (ht : t < n) :
    (aggAux n entries).getD t 0 =
      (entries.map fun e => e.1 * e.2.getD t 0).sum := by
  induction entries with
  | nil => simp [aggAux_nil, getD_replicate_zero]
  | cons e rest ih =>
    have he : e.2.length = n := halign e (List.mem_cons_self _ _)
    have hrest : ∀ x ∈ rest, x.2.length = n :=
      fun x hx => halign x (List.mem_cons_of_mem e hx)
    have hr : (aggAux n rest).length = n := aggAux_length n rest hrest
    rw [aggAux_cons, getD_zipWith _ _ _ t (by simp [he]; omega) (by omega),
      getD_map _ _ _ (by omega), ih hrest]
    simp

theorem map_sum_div {α : Type} (l : List α) (f : α → ℚ) (c : ℚ) :
    (l.map fun e => f e / c).sum = (l.map f).sum / c := by
  induction l with
  | nil => simp
  | cons e rest ih => simp [ih, add_div]

theorem map_sum_sub {α : Type} (l : List α) (f g : α → ℚ) :
    (l.map fun e => f e - g e).sum = (l.map f).sum - (l.map g).sum := by
  induction l with
  | nil => simp
  | cons e rest ih =>
    simp only [List.map_cons, List.sum_cons, ih]
    ring

theorem swap_list_finset {α : Type} (l : List α) (n : ℕ) (g : α → ℕ → ℚ) :
    ∑ t in Finset.range n, (l.map fun e => g e t).sum =
      (l.map fun e => ∑ t in Finset.range n, g e t).sum := by
  induction l with
  | nil => simp
  | cons e rest ih =>
    simp only [List.map_cons, List.sum_cons, ← ih, Finset.sum_add_distrib]

theorem avgDaily_range (xs : List ℚ) :
    avgDaily xs = (∑ t in Finset.range xs.length, xs.getD t 0) / xs.length := by
  rw [avgDaily, sum_eq_range]

theorem popVar_range (xs : List ℚ) :
    popVar xs =
      (∑ t in Finset.range xs.length, (xs.getD t 0 - avgDaily xs) ^ 2) /
        xs.length := by
  rw [popVar, map_sum_range]

theorem popCov_range (xs ys : List ℚ) (h : ys.length = xs.length) :
    popCov xs ys =
      (∑ t in Finset.range xs.length,
        (xs.getD t 0 - avgDaily xs) * (ys.getD t 0 - avgDaily ys)) /
        xs.length := by
  rw [popCov, zipWith_sum_range _ _ _ h]

theorem avgDaily_agg (n : ℕ) (entries : List (ℚ × List ℚ))
    (halign : ∀ e ∈ entries, e.2.length = n) (hn : 0 < n) :
    avgDaily (aggAux n entries) = (entries.map fun e => e.1 * avgDaily e.2).sum := by
  have hlen := aggAux_length n entries halign
  have hn0 : (n : ℚ) ≠ 0 := Nat.cast_ne_zero.mpr hn.ne'
  rw [avgDaily_range, hlen]
  have hsum : ∑ t in Finset.range n, (aggAux n entries).getD t 0 =
      (entries.map fun e => (e.1 * avgDaily e.2) * n).sum := by
    rw [Finset.sum_congr rfl fun t ht =>
      aggAux_getD n entries halign t (Finset.mem_range.mp ht)]
    rw [swap_list_finset]
    refine congrArg List.sum (List.map_congr_left fun e he => ?_)
    rw [← Finset.mul_sum]
    have hel : e.2.length = n := halign e he
    rw [show ∑ t in Finset.range n, e.2.getD t 0 = avgDaily e.2 * n by
      rw [avgDaily_range, hel]
      field_simp]
    ring
  rw [hsum, List.sum_map_mul_right, mul_div_cancel_right₀ _ hn0]

theorem weighted_cov_sum (n : ℕ) (entries : List (ℚ × List ℚ))
    (halign : ∀ e ∈ entries, e.2.length = n) (hn : 0 < n) :
    (entries.map fun e => e.1 * popCov e.2 (aggAux n entries)).sum =
      popVar (aggAux n entries) := by
  have hlen := aggAux_length n entries halign
  have hn0 : (n : ℚ) ≠ 0 := Nat.cast_ne_zero.mpr hn.ne'
  have hm := avgDaily_agg n entries halign hn
  have hcov : ∀ e ∈ entries,
      e.1 * popCov e.2 (aggAux n entries) =
        (∑ t in Finset.range n,
          e.1 * ((e.2.getD t 0 - avgDaily e.2) *
            ((aggAux n entries).getD t 0 - avgDaily (aggAux n entries)))) / n := by
    intro e he
    have hel : e.2.length = n := halign e he
    rw [popCov_range e.2 (aggAux n entries) (by rw [hlen, hel]), hel,
      ← mul_div_assoc, Finset.mul_sum]
  rw [List.map_congr_left hcov, map_sum_div, ← swap_list_finset]
  have hinner : ∀ t ∈ Finset.range n,
      (entries.map fun e =>
        e.1 * ((e.2.getD t 0 - avgDaily e.2) *
          ((aggAux n entries).getD t 0 - avgDaily (aggAux n entries)))).sum =
        ((aggAux n entries).getD t 0 - avgDaily (aggAux n entries)) ^ 2 := by
    intro t ht
    have hteq : (entries.map fun e =>
        e.1 * ((e.2.getD t 0 - avgDaily e.2) *
          ((aggAux n entries).getD t 0 - avgDaily (aggAux n entries)))).sum =
        (entries.map fun e => e.1 * (e.2.getD t 0 - avgDaily e.2)).sum *
          ((aggAux n entries).getD t 0 - avgDaily (aggAux n entries)) := by
      rw [← List.sum_map_mul_right]
      refine congrArg List.sum (List.map_congr_left fun e he => ?_)
      ring
    rw [hteq]
    have hdev : (entries.map fun e => e.1 * (e.2.getD t 0 - avgDaily e.2)).sum =
        (aggAux n entries).getD t 0 - avgDaily (aggAux n entries) := by
      have hsplit : (entries.map fun e => e.1 * (e.2.getD t 0 - avgDaily e.2)).sum =
          (entries.map fun e => e.1 * e.2.getD t 0).sum -
            (entries.map fun e => e.1 * avgDaily e.2).sum := by
        rw [← map_sum_sub]
        refine congrArg List.sum (List.map_congr_left fun e he => ?_)
        ring
      rw [hsplit, ← aggAux_getD n entries halign t (Finset.mem_range.mp ht), ← hm]
    rw [hdev]
    ring
  rw [Finset.sum_congr rfl hinner, popVar_range, hlen]

end Engine

namespace Engine

theorem headLen_stripped (entries : List (String × ℚ × List ℚ)) (n : ℕ)
    (halign : ∀ e ∈ entries, e.2.2.length = n) (hne : entries ≠ []) :
    headLen (entries.map fun e => (e.2.1, e.2.2)) = n := by
  cases entries with
  | nil => exact absurd rfl hne
  | cons e rest => exact halign e (List.mem_cons_self _ _)

theorem stripped_align (entries : List (String × ℚ × List ℚ)) (n : ℕ)
    (halign : ∀ e ∈ entries, e.2.2.length = n) :
    ∀ s ∈ entries.map fun e => (e.2.1, e.2.2), s.2.length = n := by
  intro s hs
  obtain ⟨e, he, rfl⟩ := List.mem_map.mp hs
  exact halign e he

theorem totalRet_eq_avgDaily_port (entries : List (String × ℚ × List ℚ)) (n : ℕ)
    (hn : 0 < n) (halign : ∀ e ∈ entries, e.2.2.length = n) :
    (entries.map fun e => e.2.1 * avgDaily e.2.2).sum =
      avgDaily (aggAux n (entries.map fun e => (e.2.1, e.2.2))) := by
  rw [avgDaily_agg n _ (stripped_align entries n halign) hn, List.map_map]
  rfl

theorem decompose_eq (entries : List (String × ℚ × List ℚ)) (n : ℕ)
    (halign : ∀ e ∈ entries, e.2.2.length = n) (hne : entries ≠ []) :
    decompose entries = entries.map fun e =>
      { asset := e.1
        riskContribution :=
          if popVar (aggAux n (entries.map fun x => (x.2.1, x.2.2))) = 0 then e.2.1
          else e.2.1 * popCov e.2.2 (aggAux n (entries.map fun x => (x.2.1, x.2.2))) /
            popVar (aggAux n (entries.map fun x => (x.2.1, x.2.2)))
        returnContribution :=
          if (entries.map fun x => x.2.1 * avgDaily x.2.2).sum = 0 then e.2.1
          else e.2.1 * avgDaily e.2.2 /
            (entries.map fun x => x.2.1 * avgDaily x.2.2).sum } := by
  unfold decompose
  dsimp only
  rw [headLen_stripped entries n halign hne]

theorem decompose_risk_sum (entries : List (String × ℚ × List ℚ)) (n : ℕ)
    (hn : 0 < n) (halign : ∀ e ∈ entries, e.2.2.length = n) (hne : entries ≠ [])
    (hvar : popVar (aggAux n (entries.map fun e => (e.2.1, e.2.2))) ≠ 0) :
    ((decompose entries).map Contribution.riskContribution).sum = 1 := by
  rw [decompose_eq entries n halign hne, List.map_map]
  have hmap : (entries.map
      (Contribution.riskContribution ∘ fun e =>
        ({ asset := e.1
           riskContribution :=
             if popVar (aggAux n (entries.map fun x => (x.2.1, x.2.2))) = 0 then e.2.1
             else e.2.1 * popCov e.2.2 (aggAux n (entries.map fun x => (x.2.1, x.2.2))) /
               popVar (aggAux n (entries.map fun x => (x.2.1, x.2.2)))
           returnContribution :=
             if (entries.map fun x => x.2.1 * avgDaily x.2.2).sum = 0 then e.2.1
             else e.2.1 * avgDaily e.2.2 /
               (entries.map fun x => x.2.1 * avgDaily x.2.2).sum } : Contribution))) =
      entries.map fun e =>
        e.2.1 * popCov e.2.2 (aggAux n (entries.map fun x => (x.2.1, x.2.2))) /
          popVar (aggAux n (entries.map fun x => (x.2.1, x.2.2))) := by
    refine List.map_congr_left fun e he => ?_
    simp [hvar]
  rw [hmap, map_sum_div]
  have hcov : (entries.map fun e =>
      e.2.1 * popCov e.2.2 (aggAux n (entries.map fun x => (x.2.1, x.2.2)))).sum =
      popVar (aggAux n (entries.map fun e => (e.2.1, e.2.2))) := by
    have h := weighted_cov_sum n (entries.map fun e => (e.2.1, e.2.2))
      (stripped_align entries n halign) hn
    rw [List.map_map] at h
    exact h
  rw [hcov, div_self hvar]

theorem decompose_return_sum (entries : List (String × ℚ × List ℚ)) (n : ℕ)
    (halign : ∀ e ∈ entries, e.2.2.length = n) (hne : entries ≠ [])
    (htot : (entries.map fun e => e.2.1 * avgDaily e.2.2).sum ≠ 0) :
    ((decompose entries).map Contribution.returnContribution).sum = 1 := by
  rw [decompose_eq entries n halign hne, List.map_map]
  have hmap : (entries.map
      (Contribution.returnContribution ∘ fun e =>
        ({ asset := e.1
           riskContribution :=
             if popVar (aggAux n (entries.map fun x => (x.2.1, x.2.2))) = 0 then e.2.1
             else e.2.1 * popCov e.2.2 (aggAux n (entries.map fun x => (x.2.1, x.2.2))) /
               popVar (aggAux n (entries.map fun x => (x.2.1, x.2.2)))
           returnContribution :=
             if (entries.map fun x => x.2.1 * avgDaily x.2.2).sum = 0 then e.2.1
             else e.2.1 * avgDaily e.2.2 /
               (entries.map fun x => x.2.1 * avgDaily x.2.2).sum } : Contribution))) =
      entries.map fun e =>
        e.2.1 * avgDaily e.2.2 / (entries.map fun x => x.2.1 * avgDaily x.2.2).sum := by
    refine List.map_congr_left fun e he => ?_
    simp [htot]
  rw [hmap, map_sum_div, div_self htot]

theorem popVar_nonneg (xs : List ℚ) : 0 ≤ popVar xs := by
  unfold popVar
  refine div_nonneg (List.sum_nonneg ?_) (Nat.cast_nonneg _)
  intro x hx
  obtain ⟨r, hr, rfl⟩ := List.mem_map.mp hx
  positivity

theorem volatility_eq_zero_iff (xs : List ℚ) :
    Real.sqrt ((popVar xs : ℚ) : ℝ) * Real.sqrt 252 = 0 ↔ popVar xs = 0 := by
  have h252 : Real.sqrt 252 ≠ 0 := by
    positivity
  rw [mul_eq_zero]
  constructor
  · rintro (h | h)
    · have := Real.sqrt_eq_zero'.mp h
      have hnn : (0 : ℝ) ≤ ((popVar xs : ℚ) : ℝ) := by
        exact_mod_cast popVar_nonneg xs
      have : ((popVar xs : ℚ) : ℝ) = 0 := le_antisymm this hnn
      exact_mod_cast this
    · exact absurd h h252
  · intro h
    left
    rw [h]
    simp

theorem maxDrawdown_mem_unit (rs : List ℚ) :
    0 ≤ maxDrawdown rs ∧ maxDrawdown rs ≤ 1 := by
  unfold maxDrawdown
  constructor
  · exact le_min (by norm_num) (le_max_left 0 _)
  · exact min_le_left 1 _

theorem compute_ok (rs : List ℚ) (h2 : 2 ≤ rs.length) :
    compute rs = .ok
      { expectedReturn := avgDaily rs * 252
        volatility := Real.sqrt ((popVar rs : ℚ) : ℝ) * Real.sqrt 252
        maxDrawdown := Engine.maxDrawdown rs
        sharpeRatio :=
          if popVar rs = 0 then 0
          else (((avgDaily rs * 252 - riskFreeRate : ℚ)) : ℝ) /
            (Real.sqrt ((popVar rs : ℚ) : ℝ) * Real.sqrt 252) } := by
  rw [compute, if_neg (by omega)]

end Engine

namespace Engine

theorem dailyReturns_pos (seed W : ℕ) : ∀ r ∈ dailyReturns seed W, 0 < 1 + r := by
  intro r hr
  obtain ⟨t, ht, rfl⟩ := List.mem_map.mp hr
  exact one_add_dailyReturn_pos seed t

theorem returnsOf_backPrices_length (cp : ℚ) (rs : List ℚ) :
    (returnsOf (backPrices cp rs)).length = rs.length := by
  rw [returnsOf_length, backPrices_length]
  omega

theorem entriesOf_align (resolve : Resolver) (W : ℕ)
    (portfolio : List (String × ℚ)) :
    ∀ e ∈ entriesOf resolve W portfolio, e.2.2.length = W := by
  intro e he
  obtain ⟨a, ha, rfl⟩ := List.mem_map.mp he
  simp [returnsOf_backPrices_length, dailyReturns_length]

theorem entriesOf_ne_nil (resolve : Resolver) (W : ℕ)
    (portfolio : List (String × ℚ)) (h : portfolio ≠ []) :
    entriesOf resolve W portfolio ≠ [] := by
  simpa [entriesOf] using h

theorem synthEntries_ok (resolve : Resolver) (W : ℕ)
    (portfolio : List (String × ℚ)) (hW : 1 ≤ W)
    (hres : ∀ a ∈ portfolio, ∃ sc, resolve a.1 = some sc ∧ 0 < sc.2) :
    synthEntries resolve W portfolio = .ok (entriesOf resolve W portfolio) := by
  induction portfolio with
  | nil => rfl
  | cons a rest ih =>
    obtain ⟨sc, hsc, hpos⟩ := hres a (List.mem_cons_self _ _)
    have hrest := ih fun x hx => hres x (List.mem_cons_of_mem _ hx)
    obtain ⟨assetId, w⟩ := a
    simp only [synthEntries, hsc]
    rw [synthesize_ok _ _ _ _ hW]
    simp only [Bind.bind, Except.bind]
    rw [toReturns_ok _ (backPrices_pos _ _ hpos (dailyReturns_pos _ _)), hrest]
    simp [entriesOf, hsc, returnsOf]

theorem benchReturns_ok (resolve : Resolver) (assetId : String) (W : ℕ)
    (hW : 1 ≤ W) (hsc : ∃ sc, resolve assetId = some sc ∧ 0 < sc.2) :
    benchReturns resolve assetId W = .ok (benchRsOf resolve assetId W) := by
  obtain ⟨sc, hsc, hpos⟩ := hsc
  unfold benchReturns benchRsOf
  rw [hsc]
  simp only [Option.elim]
  rw [synthesize_ok _ _ _ _ hW]
  simp only [Bind.bind, Except.bind]
  exact toReturns_ok _ (backPrices_pos _ _ hpos (dailyReturns_pos _ _))

theorem benchRsOf_length (resolve : Resolver) (assetId : String) (W : ℕ) :
    (benchRsOf resolve assetId W).length = W := by
  rw [benchRsOf, returnsOf_backPrices_length, dailyReturns_length]

theorem weightedAggregate_ok (es : List (ℚ × List ℚ))
    (h : ∀ s ∈ es, s.2.length = headLen es) :
    weightedAggregate es = .ok (aggAux (headLen es) es) := by
  rw [weightedAggregate, if_pos h]

theorem cumIndex_length (rs : List ℚ) : (cumIndex rs).length = rs.length + 1 := by
  rw [cumIndex]
  exact List.length_scanl _ _

theorem cumIndex_head (rs : List ℚ) : ∃ t, cumIndex rs = 100 :: t := by
  cases rs with
  | nil => exact ⟨[], rfl⟩
  | cons r rest => exact ⟨_, rfl⟩

theorem dateAxis_length (W : ℕ) : (dateAxis W).length = W + 1 := by
  simp [dateAxis]

theorem normalize_ok (pR bR eR : List ℚ) (dates : List String)
    (hb : bR.length = pR.length) (he2 : eR.length = pR.length)
    (hd : dates.length = pR.length + 1) :
    ∃ pts, normalize pR bR eR dates = .ok pts ∧
      pts.length = pR.length + 1 ∧
      ∃ pt, pts.head? = some pt ∧
        pt.portfolio = 100 ∧ pt.btc = 100 ∧ pt.eth = 100 := by
  rw [normalize, if_pos ⟨hb, he2, hd⟩]
  refine ⟨_, rfl, ?_, ?_⟩
  · simp [List.length_zip, cumIndex_length, hb, he2, hd]
  · obtain ⟨tp, hp⟩ := cumIndex_head pR
    obtain ⟨tb, hbb⟩ := cumIndex_head bR
    obtain ⟨te, hee⟩ := cumIndex_head eR
    cases dates with
    | nil => simp at hd
    | cons d drest =>
      rw [hp, hbb, hee]
      refine ⟨_, rfl, rfl, rfl, rfl⟩

theorem analyzePortfolio_ok (resolve : Resolver)
    (portfolio : List (String × ℚ)) (W : ℕ)
    (hlen : 2 ≤ portfolio.length)
    (hsum : |sumWeights portfolio - 1| ≤ 1 / 1000)
    (hwts : ∀ a ∈ portfolio, 0 ≤ a.2 ∧ a.2 ≤ 1)
    (hres : ∀ assetId, ∃ sc, resolve assetId = some sc ∧ 0 < sc.2)
    (hW : 2 ≤ W) :
    ∃ a, analyzePortfolio resolve portfolio W = .ok a ∧
      a.historicalReturns = portSeriesOf resolve W portfolio ∧
      a.assetContributions = decompose (entriesOf resolve W portfolio) ∧
      a.historicalReturns.length = W ∧
      a.cumulativeReturns.length = W + 1 ∧
      ∃ pt, a.cumulativeReturns.head? = some pt ∧
        pt.portfolio = 100 ∧ pt.btc = 100 ∧ pt.eth = 100 := by
  have hW1 : 1 ≤ W := by omega
  have hal := entriesOf_align resolve W portfolio
  have hne : entriesOf resolve W portfolio ≠ [] :=
    entriesOf_ne_nil resolve W portfolio (by intro h; rw [h] at hlen; simp at hlen)
  have hhl : headLen ((entriesOf resolve W portfolio).map fun e => (e.2.1, e.2.2)) = W :=
    headLen_stripped _ W hal hne
  have hstr := stripped_align _ W hal
  have hportlen : (portSeriesOf resolve W portfolio).length = W :=
    aggAux_length W _ hstr
  rw [analyzePortfolio, if_neg (by omega), if_neg (not_not.mpr hsum),
    if_neg (not_not.mpr hwts)]
  rw [synthEntries_ok resolve W portfolio hW1 fun a _ => hres a.1]
  simp only [Bind.bind, Except.bind]
  rw [weightedAggregate_ok _ (by rw [hhl]; exact hstr), hhl]
  rw [show aggAux W ((entriesOf resolve W portfolio).map fun e => (e.2.1, e.2.2)) =
    portSeriesOf resolve W portfolio from rfl]
  dsimp only
  rw [compute_ok _ (by rw [hportlen]; exact hW)]
  dsimp only
  rw [benchReturns_ok resolve btcId W hW1 (hres btcId)]
  dsimp only
  rw [benchReturns_ok resolve ethId W hW1 (hres ethId)]
  dsimp only
  obtain ⟨pts, hnorm, hlen2, pt, hhead, h100p, h100b, h100e⟩ :=
    normalize_ok (portSeriesOf resolve W portfolio)
      (benchRsOf resolve btcId W) (benchRsOf resolve ethId W) (dateAxis W)
      (by rw [benchRsOf_length, hportlen])
      (by rw [benchRsOf_length, hportlen])
      (by rw [dateAxis_length, hportlen])
  rw [hnorm]
  dsimp only
  exact ⟨_, rfl, rfl, rfl, hportlen, by rw [hlen2, hportlen],
    pt, hhead, h100p, h100b, h100e⟩

end Engine

namespace Engine

theorem returnsOf_backPrices (cp : ℚ) (rs : List ℚ) (hcp : 0 < cp)
    (hr : ∀ r ∈ rs, 0 < 1 + r) : returnsOf (backPrices cp rs) = rs := by
  induction rs with
  | nil => simp [backPrices, returnsOf]
  | cons r rest ih =>
    obtain ⟨p, t, h1, h2⟩ := backPrices_cons cp r rest
    have hp : 0 < p :=
      backPrices_pos cp rest hcp (fun x hx => hr x (List.mem_cons_of_mem _ hx)) p
        (by rw [h1]; exact List.mem_cons_self _ _)
    have h1r : 0 < 1 + r := hr r (List.mem_cons_self _ _)
    have htail : returnsOf (p :: t) = rest := by
      rw [← h1]
      exact ih fun x hx => hr x (List.mem_cons_of_mem _ hx)
    rw [h2]
    have hcons : returnsOf (p / (1 + r) :: p :: t) =
        ((p - p / (1 + r)) / (p / (1 + r))) :: returnsOf (p :: t) := by
      simp [returnsOf]
    rw [hcons, htail]
    congr 1
    field_simp
    ring

theorem synthEntries_err0 (resolve : Resolver) (a : String × ℚ)
    (rest : List (String × ℚ)) :
    ∃ e, synthEntries resolve 0 (a :: rest) = .error e := by
  obtain ⟨assetId, w⟩ := a
  simp only [synthEntries]
  cases hsc : resolve assetId with
  | none => exact ⟨.priceResolution, rfl⟩
  | some sc =>
    refine ⟨.insufficientData, ?_⟩
    dsimp only
    rw [show synthesize assetId sc.2 0 (seedOf assetId) =
      .error .insufficientData from rfl]
    rfl

end Engine

namespace Frontend

theorem foldl_add_map (f : ℚ → ℚ) (l : List ℚ) (init : ℚ) :
    l.foldl (fun s r => s + f r) init = init + (l.map f).sum := by
  induction l generalizing init with
  | nil => simp
  | cons x rest ih => simp [ih, add_assoc]

theorem avgDaily_eq_frontend (rs : List ℚ) :
    Engine.avgDaily rs = avgDailyReturn rs := by
  unfold Engine.avgDaily avgDailyReturn
  congr 1
  have h := foldl_add_map (fun r => r) rs 0
  simpa using h.symm

theorem popVar_eq_frontend (rs : List ℚ) :
    Engine.popVar rs = dailyVariance rs := by
  unfold Engine.popVar dailyVariance
  simp only [avgDaily_eq_frontend]
  congr 1
  have h := foldl_add_map (fun r => (r - avgDailyReturn rs) ^ 2) rs 0
  simpa using h.symm

end Frontend

/-- C2: for every assetId, currentPrice > 0, windowDays >= 1 and seed
material, `synthesize` returns a price series of length `windowDays + 1`
whose prices are all strictly positive and whose last price equals
`currentPrice` exactly. -/
theorem synthesize_anchored_positive_series (assetId : String) (cp : ℚ)
    (W seed : ℕ) (hcp : 0 < cp) (hW : 1 ≤ W) :
    ∃ ps, Engine.synthesize assetId cp W seed = .ok ps ∧
      ps.length = W + 1 ∧ (∀ p ∈ ps, 0 < p) ∧ ps.getLast? = some cp := by
  refine ⟨_, Engine.synthesize_ok assetId cp W seed hW, ?_, ?_, ?_⟩
  · rw [Engine.backPrices_length, Engine.dailyReturns_length]
  · exact Engine.backPrices_pos _ _ hcp (Engine.dailyReturns_pos _ _)
  · exact Engine.backPrices_getLast? _ _

/-- Witness for C2 at a concrete input: asset id "coin", current price
100, a 30-day window and seed 7. -/
theorem synthesize_anchored_positive_series_witness :
    ∃ ps, Engine.synthesize "coin" 100 30 7 = .ok ps ∧
      ps.length = 30 + 1 ∧ (∀ p ∈ ps, 0 < p) ∧ ps.getLast? = some 100 :=
  synthesize_anchored_positive_series "coin" 100 30 7 (by norm_num) (by norm_num)

/-- C6: on a return series of length at least 2 with zero population
variance (an all-zero series is the canonical example), `compute` succeeds
and defines both the volatility and the Sharpe ratio to be exactly 0, so
the guarded division never produces an undefined value. -/
theorem zero_variance_sharpe_zero (rs : List ℚ) (h2 : 2 ≤ rs.length)
    (hvar : Engine.popVar rs = 0) :
    ∃ m, Engine.compute rs = .ok m ∧ m.volatility = 0 ∧ m.sharpeRatio = 0 := by
  refine ⟨_, Engine.compute_ok rs h2, ?_, ?_⟩
  · dsimp only
    rw [hvar]
    simp
  · dsimp only
    rw [if_pos hvar]

/-- Witness for C6 at the all-zero return series of length 2. -/
theorem zero_variance_sharpe_zero_witness :
    ∃ m, Engine.compute [0, 0] = .ok m ∧ m.volatility = 0 ∧ m.sharpeRatio = 0 :=
  zero_variance_sharpe_zero [0, 0] (by norm_num)
    (by norm_num [Engine.popVar, Engine.avgDaily])

/-- C7: on a return series of length at least 2, `compute` returns an
expected return equal to the mean daily return times 252, and a volatility
equal to the square root of the population variance (divisor N) times the
square root of 252 — both also agreeing with the reduce-based formulas the
frontend re-derives in `generatePersonalizedCalculation`. -/
theorem compute_matches_frontend_formulas (rs : List ℚ) (h2 : 2 ≤ rs.length) :
    ∃ m, Engine.compute rs = .ok m ∧
      m.expectedReturn = rs.sum / rs.length * 252 ∧
      m.expectedReturn = Frontend.annualizedReturn rs ∧
      m.volatility =
        Real.sqrt ((Frontend.dailyVariance rs : ℚ) : ℝ) * Real.sqrt 252 := by
  refine ⟨_, Engine.compute_ok rs h2, rfl, ?_, ?_⟩
  · dsimp only
    rw [Frontend.annualizedReturn, ← Frontend.avgDaily_eq_frontend]
  · dsimp only
    rw [← Frontend.popVar_eq_frontend]

/-- Witness for C7 at the concrete return series `[1/10, -1/20]`. -/
theorem compute_matches_frontend_formulas_witness :
    ∃ m, Engine.compute [1/10, -1/20] = .ok m ∧
      m.expectedReturn = ([1/10, -1/20] : List ℚ).sum / 2 * 252 ∧
      m.expectedReturn = Frontend.annualizedReturn [1/10, -1/20] ∧
      m.volatility =
        Real.sqrt ((Frontend.dailyVariance [1/10, -1/20] : ℚ) : ℝ) * Real.sqrt 252 := by
  have h := compute_matches_frontend_formulas [1/10, -1/20] (by norm_num)
  simpa using h

/-- C9: on a return series of length at least 2, the maximum drawdown that
`compute` reports — built from the cumulative value path, the running peak
and the clamp — lies in the closed interval from 0 to 1. -/
theorem max_drawdown_in_unit_interval (rs : List ℚ) (h2 : 2 ≤ rs.length) :
    ∃ m, Engine.compute rs = .ok m ∧ 0 ≤ m.maxDrawdown ∧ m.maxDrawdown ≤ 1 :=
  ⟨_, Engine.compute_ok rs h2, (Engine.maxDrawdown_mem_unit rs).1,
    (Engine.maxDrawdown_mem_unit rs).2⟩

/-- Witness for C9 at the concrete return series `[1/10, -1/5]`. -/
theorem max_drawdown_in_unit_interval_witness :
    ∃ m, Engine.compute [1/10, -1/5] = .ok m ∧
      0 ≤ m.maxDrawdown ∧ m.maxDrawdown ≤ 1 :=
  max_drawdown_in_unit_interval [1/10, -1/5] (by norm_num)

/-- C3: the engine re-validates the weight preconditions defensively — a
portfolio whose weights miss the sum-to-one tolerance of 1/1000 or contain
a weight outside the unit interval is rejected with
`InvalidPortfolioError`, whatever the resolver and the window are. -/
theorem invalid_weights_rejected (resolve : Engine.Resolver)
    (P : List (String × ℚ)) (W : ℕ)
    (hbad : ¬ (|Engine.sumWeights P - 1| ≤ 1 / 1000) ∨
      ¬ (∀ a ∈ P, 0 ≤ a.2 ∧ a.2 ≤ 1)) :
    Engine.analyzePortfolio resolve P W = .error .invalidPortfolio := by
  by_cases h1 : P.length < 2
  · rw [Engine.analyzePortfolio, if_pos h1]
  · rcases hbad with h | h
    · rw [Engine.analyzePortfolio, if_neg h1, if_pos h]
    · by_cases h2 : |Engine.sumWeights P - 1| ≤ 1 / 1000
      · rw [Engine.analyzePortfolio, if_neg h1, if_neg (not_not.mpr h2), if_pos h]
      · rw [Engine.analyzePortfolio, if_neg h1, if_pos h2]

/-- Witness for C3 at the concrete scenario of the spec: two assets with
weights 0.5 and 0.4 (sum 0.9) are rejected rather than analyzed. -/
theorem invalid_weights_rejected_witness :
    Engine.analyzePortfolio (fun _ => some ("X", 100))
      [("bitcoin", 1/2), ("ethereum", 2/5)] 30 = .error .invalidPortfolio :=
  invalid_weights_rejected _ _ _
    (Or.inl (by norm_num [Engine.sumWeights, abs_le]))

/-- C4: a portfolio with fewer than 2 assets is rejected — by the route
with the 400 client-error response `Portfolio must contain at least 2
assets` before the engine is ever consulted, and by the engine itself with
`InvalidPortfolioError`. -/
theorem too_few_assets_rejected :
    (∀ (resolve : Engine.Resolver) (assets : List Routes.RawAsset) (days : ℕ),
      assets.length < 2 →
        Routes.handleAnalyze resolve (some assets) days =
          .clientError "Portfolio must contain at least 2 assets") ∧
    (∀ (resolve : Engine.Resolver) (P : List (String × ℚ)) (W : ℕ),
      P.length < 2 →
        Engine.analyzePortfolio resolve P W = .error .invalidPortfolio) := by
  constructor
  · intro resolve assets days h
    simp [Routes.handleAnalyze, h]
  · intro resolve P W h
    simp [Engine.analyzePortfolio, h]

/-- Witness for C4 at a concrete single-asset request and a concrete
single-asset engine call. -/
theorem too_few_assets_rejected_witness :
    Routes.handleAnalyze (fun _ => some ("X", 100))
      (some [{ id := some "bitcoin", allocation := some 100 }]) 30 =
        .clientError "Portfolio must contain at least 2 assets" ∧
    Engine.analyzePortfolio (fun _ => some ("X", 100)) [("bitcoin", 1)] 30 =
      .error .invalidPortfolio :=
  ⟨too_few_assets_rejected.1 _ _ 30 (by norm_num),
    too_few_assets_rejected.2 _ _ 30 (by norm_num)⟩

/-- C5: a zero-day window is rejected — the Synthesizer fails with the
data-insufficiency error on `windowDays = 0`, and every `analyzePortfolio`
call with `windowDays = 0` returns an error instead of an analytics
record, for every resolver and portfolio. -/
theorem window_zero_rejected :
    (∀ (assetId : String) (cp : ℚ) (seed : ℕ),
      Engine.synthesize assetId cp 0 seed = .error .insufficientData) ∧
    (∀ (resolve : Engine.Resolver) (P : List (String × ℚ)),
      ∃ e, Engine.analyzePortfolio resolve P 0 = .error e) := by
  constructor
  · intro assetId cp seed
    rfl
  · intro resolve P
    by_cases h1 : P.length < 2
    · exact ⟨.invalidPortfolio, by rw [Engine.analyzePortfolio, if_pos h1]⟩
    · by_cases h2 : |Engine.sumWeights P - 1| ≤ 1 / 1000
      · by_cases h3 : ∀ a ∈ P, 0 ≤ a.2 ∧ a.2 ≤ 1
        · cases P with
          | nil => simp at h1
          | cons a rest =>
            obtain ⟨e, he⟩ := Engine.synthEntries_err0 resolve a rest
            refine ⟨e, ?_⟩
            rw [Engine.analyzePortfolio, if_neg h1, if_neg (not_not.mpr h2),
              if_neg (not_not.mpr h3), he]
            rfl
        · exact ⟨.invalidPortfolio, by
            rw [Engine.analyzePortfolio, if_neg h1, if_neg (not_not.mpr h2),
              if_pos h3]⟩
      · exact ⟨.invalidPortfolio, by
          rw [Engine.analyzePortfolio, if_neg h1, if_pos h2]⟩

/-- C8: a valid analyze call over a window of W days (W at least 2, so the
metrics stage has the two returns it needs) succeeds and returns
`historicalReturns` of length W and `cumulativeReturns` of length W + 1
whose day-0 entry carries the portfolio, btc and eth indices all at
exactly 100. -/
theorem analytics_lengths_and_base_index (resolve : Engine.Resolver)
    (P : List (String × ℚ)) (W : ℕ)
    (hlen : 2 ≤ P.length)
    (hsum : |Engine.sumWeights P - 1| ≤ 1 / 1000)
    (hwts : ∀ a ∈ P, 0 ≤ a.2 ∧ a.2 ≤ 1)
    (hres : ∀ assetId, ∃ sc, resolve assetId = some sc ∧ 0 < sc.2)
    (hW : 2 ≤ W) :
    ∃ a, Engine.analyzePortfolio resolve P W = .ok a ∧
      a.historicalReturns.length = W ∧
      a.cumulativeReturns.length = W + 1 ∧
      ∃ pt, a.cumulativeReturns.head? = some pt ∧
        pt.portfolio = 100 ∧ pt.btc = 100 ∧ pt.eth = 100 := by
  obtain ⟨a, ha, _, _, h1, h2, h3⟩ :=
    Engine.analyzePortfolio_ok resolve P W hlen hsum hwts hres hW
  exact ⟨a, ha, h1, h2, h3⟩

/-- Witness for C8 at the concrete scenario of the spec: a 60/40 two-asset
portfolio, current prices 100 and 50, and a 30-day window. -/
theorem analytics_lengths_and_base_index_witness :
    ∃ a, Engine.analyzePortfolio
        (fun assetId => some (assetId, if assetId = "asset-b" then 50 else 100))
        [("asset-a", 3/5), ("asset-b", 2/5)] 30 = .ok a ∧
      a.historicalReturns.length = 30 ∧
      a.cumulativeReturns.length = 30 + 1 ∧
      ∃ pt, a.cumulativeReturns.head? = some pt ∧
        pt.portfolio = 100 ∧ pt.btc = 100 ∧ pt.eth = 100 :=
  analytics_lengths_and_base_index _ _ _
    (by norm_num)
    (by norm_num [Engine.sumWeights, abs_le])
    (by norm_num)
    (fun assetId => ⟨(assetId, if assetId = "asset-b" then 50 else 100), rfl,
      by split <;> norm_num⟩)
    (by norm_num)

/-- C1: a valid analyze call whose aggregated portfolio return series has
nonzero population variance and nonzero mean daily return succeeds, and
the returned contributions have risk shares summing to 1 within 1e-6 and
return shares summing to 1 within 1e-6 (both sums are in fact exactly 1). -/
theorem contributions_sum_to_one (resolve : Engine.Resolver)
    (P : List (String × ℚ)) (W : ℕ)
    (hlen : 2 ≤ P.length)
    (hsum : |Engine.sumWeights P - 1| ≤ 1 / 1000)
    (hwts : ∀ a ∈ P, 0 ≤ a.2 ∧ a.2 ≤ 1)
    (hres : ∀ assetId, ∃ sc, resolve assetId = some sc ∧ 0 < sc.2)
    (hW : 2 ≤ W)
    (hvar : Engine.popVar (Engine.portSeriesOf resolve W P) ≠ 0)
    (hmean : Engine.avgDaily (Engine.portSeriesOf resolve W P) ≠ 0) :
    ∃ a, Engine.analyzePortfolio resolve P W = .ok a ∧
      |(a.assetContributions.map Engine.Contribution.riskContribution).sum - 1|
        ≤ 1 / 1000000 ∧
      |(a.assetContributions.map Engine.Contribution.returnContribution).sum - 1|
        ≤ 1 / 1000000 := by
  obtain ⟨a, ha, hhist, hcontrib, hl1, hl2, hl3⟩ :=
    Engine.analyzePortfolio_ok resolve P W hlen hsum hwts hres hW
  have hal := Engine.entriesOf_align resolve W P
  have hne : Engine.entriesOf resolve W P ≠ [] :=
    Engine.entriesOf_ne_nil resolve W P (by intro h; rw [h] at hlen; simp at hlen)
  have hW0 : 0 < W := by omega
  have hrisk :=
    Engine.decompose_risk_sum (Engine.entriesOf resolve W P) W hW0 hal hne hvar
  have htot : (List.map (fun e => e.2.1 * Engine.avgDaily e.2.2)
      (Engine.entriesOf resolve W P)).sum ≠ 0 := by
    rw [Engine.totalRet_eq_avgDaily_port _ W hW0 hal]
    exact hmean
  have hret :=
    Engine.decompose_return_sum (Engine.entriesOf resolve W P) W hal hne htot
  refine ⟨a, ha, ?_, ?_⟩
  · rw [hcontrib, hrisk]
    norm_num
  · rw [hcontrib, hret]
    norm_num

/-- Witness for C1 at a concrete equal-weight two-asset portfolio over a
2-day window; the aggregated series is computed in exact arithmetic and
its variance and mean are checked to be nonzero. -/
theorem contributions_sum_to_one_witness :
    ∃ a, Engine.analyzePortfolio (fun _ => some ("X", 100))
        [("a", 1/2), ("b", 1/2)] 2 = .ok a ∧
      |(a.assetContributions.map Engine.Contribution.riskContribution).sum - 1|
        ≤ 1 / 1000000 ∧
      |(a.assetContributions.map Engine.Contribution.returnContribution).sum - 1|
        ≤ 1 / 1000000 := by
  have h97 : Engine.returnsOf (Engine.backPrices 100
      (Engine.dailyReturns (Engine.seedOf "a") 2)) =
      Engine.dailyReturns (Engine.seedOf "a") 2 :=
    Engine.returnsOf_backPrices _ _ (by norm_num) (Engine.dailyReturns_pos _ _)
  have h98 : Engine.returnsOf (Engine.backPrices 100
      (Engine.dailyReturns (Engine.seedOf "b") 2)) =
      Engine.dailyReturns (Engine.seedOf "b") 2 :=
    Engine.returnsOf_backPrices _ _ (by norm_num) (Engine.dailyReturns_pos _ _)
  have hps : Engine.portSeriesOf (fun _ => some ("X", (100 : ℚ))) 2
      [("a", 1/2), ("b", 1/2)] = [-695923/65537000, -24553/65537000] := by
    rw [Engine.portSeriesOf, Engine.entriesOf]
    simp only [List.map_cons, List.map_nil, Option.elim, h97, h98]
    norm_num [Engine.aggAux, Engine.dailyReturns, Engine.dailyReturn,
      Engine.randAt, Engine.lcg, Engine.drift, Engine.dailyVolConst,
      show Engine.seedOf "a" = 97 from by decide,
      show Engine.seedOf "b" = 98 from by decide,
      List.range_succ, Function.iterate_succ_apply', Function.iterate_zero_apply,
      List.replicate, List.foldr]
  exact contributions_sum_to_one _ _ _
    (by norm_num)
    (by norm_num [Engine.sumWeights, abs_le])
    (by norm_num)
    (fun assetId => ⟨("X", 100), rfl, by norm_num⟩)
    (by norm_num)
    (by rw [hps]; norm_num [Engine.popVar, Engine.avgDaily])
    (by rw [hps]; norm_num [Engine.avgDaily])

/-- C10: a request whose assets all carry a truthy id and a numeric
allocation is forwarded to the engine with every weight equal to the
request's allocation divided by 100, the route response wrapping the
engine result; a request in which some asset lacks an id or has a
non-numeric allocation is answered with the 400 client error without the
engine result playing any part. -/
theorem route_converts_percentages (resolve : Engine.Resolver)
    (assets : List Routes.RawAsset) (days : ℕ) (hlen : 2 ≤ assets.length) :
    ((∀ a ∈ assets, ¬ Routes.idFalsy a ∧ a.allocation ≠ none) →
      Routes.handleAnalyze resolve (some assets) days =
        (match Engine.analyzePortfolio resolve
            (assets.map Routes.convertAsset) days with
          | .ok an => Routes.RouteResult.ok an
          | .error _ => Routes.RouteResult.serverError "Failed to analyze portfolio") ∧
      ∀ a ∈ assets, (Routes.convertAsset a).2 = a.allocation.getD 0 / 100) ∧
    ((¬ ∀ a ∈ assets, ¬ Routes.idFalsy a ∧ a.allocation ≠ none) →
      Routes.handleAnalyze resolve (some assets) days =
        .clientError "Each asset must have id and allocation") := by
  constructor
  · intro hok
    constructor
    · rw [Routes.handleAnalyze]
      rw [if_neg (by omega), if_neg (not_not.mpr hok)]
    · intro a ha
      rfl
  · intro hbad
    rw [Routes.handleAnalyze]
    rw [if_neg (by omega), if_pos hbad]

/-- Witness for C10 at a concrete two-asset request with allocations 60
and 40 percent. -/
theorem route_converts_percentages_witness :
    ((∀ a ∈ [({ id := some "a", allocation := some 60 } : Routes.RawAsset),
        { id := some "b", allocation := some 40 }],
        ¬ Routes.idFalsy a ∧ a.allocation ≠ none) →
      Routes.handleAnalyze (fun _ => some ("X", 100))
        (some [{ id := some "a", allocation := some 60 },
          { id := some "b", allocation := some 40 }]) 30 =
        (match Engine.analyzePortfolio (fun _ => some ("X", 100))
            ([({ id := some "a", allocation := some 60 } : Routes.RawAsset),
              { id := some "b", allocation := some 40 }].map Routes.convertAsset)
            30 with
          | .ok an => Routes.RouteResult.ok an
          | .error _ => Routes.RouteResult.serverError "Failed to analyze portfolio") ∧
      ∀ a ∈ [({ id := some "a", allocation := some 60 } : Routes.RawAsset),
        { id := some "b", allocation := some 40 }],
        (Routes.convertAsset a).2 = a.allocation.getD 0 / 100) ∧
    ((¬ ∀ a ∈ [({ id := some "a", allocation := some 60 } : Routes.RawAsset),
        { id := some "b", allocation := some 40 }],
        ¬ Routes.idFalsy a ∧ a.allocation ≠ none) →
      Routes.handleAnalyze (fun _ => some ("X", 100))
        (some [{ id := some "a", allocation := some 60 },
          { id := some "b", allocation := some 40 }]) 30 =
        .clientError "Each asset must have id and allocation") :=
  route_converts_percentages _ _ 30 (by norm_num)
